import Mathlib

/-!
Verification of the VS_ModsUpdater repository (Vintage Story mod updater).

This file gives a shallow embedding of the parts of `VS_ModsUpdater.py`,
`vsmu/language_handler.py` and their helpers that the claims speak about:
the semantic-version comparison used by `compversion_local` and
`compversion_first_min_version` (via the `semver` library's parse/compare),
the regex-based metadata extraction of `extract_modinfo`/`json_correction`,
the per-mod update step and loop of `update_mods`, the changelog cleanup of
`get_changelog`, the URL constructions, the exclusion-list logic of
`mods_exclusion`/`mods_list`, and `LanguageHandler.get`.
-/

namespace VSMU

/-! ## Semantic versions (the `semver` python library)

`semver.Version.parse` accepts exactly the strings matched by the anchored
regex `(0|[1-9]\d*)\.(0|[1-9]\d*)\.(0|[1-9]\d*)` followed by an optional
`-prerelease` (dot-separated identifiers, each `0|[1-9]\d*` or containing a
non-digit over `[0-9A-Za-z-]`) and an optional `+build` (dot-separated
nonempty identifiers over `[0-9A-Za-z-]`). -/
structure Version where
  major : Nat
  minor : Nat
  patch : Nat
  prerelease : Option String
  build : Option String
deriving Repr, DecidableEq

def digitVal (c : Char) : Nat := c.toNat - 48

/-- Numeric core of the semver regex: `0|[1-9][0-9]*`, returning the value
and the unconsumed characters. -/
def parseNumPart : List Char → Option (Nat × List Char)
  | [] => none
  | c :: rest =>
    if c = '0' then some (0, rest)
    else if c.isDigit then
      let ds := rest.takeWhile Char.isDigit
      some ((c :: ds).foldl (fun a d => 10 * a + digitVal d) 0, rest.drop ds.length)
    else none

def expectChar (c : Char) : List Char → Option (List Char)
  | [] => none
  | x :: rest => if x = c then some rest else none

/-- The character class `[0-9A-Za-z-]` of semver identifiers. -/
def isIdentChar (c : Char) : Bool := c.isAlpha || c.isDigit || c = '-'

/-- Python `str.split(".")` on the character list (never returns an empty
list; an empty string gives `[""]`). -/
def splitDotsChars : List Char → List (List Char)
  | [] => [[]]
  | c :: rest =>
    if c = '.' then [] :: splitDotsChars rest
    else
      match splitDotsChars rest with
      | [] => [[c]]
      | r :: rs => (c :: r) :: rs

def splitDots (s : String) : List String := (splitDotsChars s.toList).map String.mk

/-- A valid prerelease identifier: `0|[1-9]\d*|\d*[a-zA-Z-][0-9a-zA-Z-]*`,
i.e. nonempty over the identifier class, and if all digits then without a
leading zero. -/
def validPreIdent (s : String) : Bool :=
  let l := s.toList
  (!l.isEmpty) && l.all isIdentChar &&
    (if l.all Char.isDigit then decide (l.length = 1) || decide (l.head? ≠ some '0') else true)

/-- A valid build identifier: `[0-9a-zA-Z-]+`. -/
def validBuildIdent (s : String) : Bool :=
  let l := s.toList
  (!l.isEmpty) && l.all isIdentChar

/-- The `+build` suffix of the semver grammar (the leading `+` already
consumed). -/
def parseBuild (maj mnr pat : Nat) (pre : Option String) (brest : List Char) : Option Version :=
  if (splitDots (String.mk brest)).all validBuildIdent then
    some ⟨maj, mnr, pat, pre, some (String.mk brest)⟩
  else none

/-- Optional `-prerelease` and `+build` suffixes of the semver grammar. -/
def parseTail (maj mnr pat : Nat) : List Char → Option Version
  | [] => some ⟨maj, mnr, pat, none, none⟩
  | c :: rest =>
    if c = '-' then
      if (splitDots (String.mk (rest.takeWhile fun x => x ≠ '+'))).all validPreIdent then
        match rest.drop (rest.takeWhile fun x => x ≠ '+').length with
        | [] => some ⟨maj, mnr, pat, some (String.mk (rest.takeWhile fun x => x ≠ '+')), none⟩
        | _ :: brest =>
          parseBuild maj mnr pat (some (String.mk (rest.takeWhile fun x => x ≠ '+'))) brest
      else none
    else if c = '+' then parseBuild maj mnr pat none rest
    else none

/-- Embeds `semver.Version.parse` on a whole string. -/
def parseVersion (s : String) : Option Version :=
  match parseNumPart s.toList with
  | none => none
  | some (maj, r1) =>
    match expectChar '.' r1 with
    | none => none
    | some r2 =>
      match parseNumPart r2 with
      | none => none
      | some (mnr, r3) =>
        match expectChar '.' r3 with
        | none => none
        | some r4 =>
          match parseNumPart r4 with
          | none => none
          | some (pat, r5) => parseTail maj mnr pat r5

/-! ### The comparison algorithm of `semver` (`Version.compare`, `_nat_cmp`) -/
def natCmpI (a b : Nat) : Int := if a < b then -1 else if b < a then 1 else 0

/-- Python string `<`: lexicographic comparison by code point. -/
def charListLt : List Char → List Char → Bool
  | [], [] => false
  | [], _ :: _ => true
  | _ :: _, [] => false
  | a :: as, b :: bs =>
    if a.toNat < b.toNat then true
    else if b.toNat < a.toNat then false
    else charListLt as bs

def strLtB (a b : String) : Bool := charListLt a.toList b.toList

def strCmp (a b : String) : Int := if strLtB a b then -1 else if strLtB b a then 1 else 0

/-- Python `str.isdigit` restricted to ASCII. -/
def pyIsDigits (s : String) : Bool := (!s.toList.isEmpty) && s.toList.all Char.isDigit

/-- Python `int` on a digit string. -/
def pyToNat (s : String) : Nat := s.toList.foldl (fun a d => 10 * a + digitVal d) 0

/-- Embeds `semver._comparator`'s `cmp_prerelease_tag`: numeric identifiers compare
as integers, a numeric identifier is below a non-numeric one, non-numeric
identifiers compare as strings. -/
def cmpPrereleaseTag (a b : String) : Int :=
  if pyIsDigits a && pyIsDigits b then natCmpI (pyToNat a) (pyToNat b)
  else if pyIsDigits a then -1
  else if pyIsDigits b then 1
  else strCmp a b

/-- Embeds `semver._nat_cmp` on the dot-split identifier lists: first differing
identifier wins, otherwise the shorter list is smaller. -/
def natCmpParts : List String → List String → Int
  | [], [] => 0
  | [], _ :: _ => -1
  | _ :: _, [] => 1
  | a :: as, b :: bs =>
    let c := cmpPrereleaseTag a b
    if c = 0 then natCmpParts as bs else c

def natCmpOpt (a b : Option String) : Int :=
  natCmpParts (splitDots (a.getD "")) (splitDots (b.getD ""))

def tripleCmp (x y : Version) : Int :=
  let c1 := natCmpI x.major y.major
  if c1 = 0 then
    let c2 := natCmpI x.minor y.minor
    if c2 = 0 then natCmpI x.patch y.patch else c2
  else c1

/-- Embeds `semver.Version.compare`: major/minor/patch lexicographically, then a
version without prerelease is above one with, then the prerelease identifier
lists; build metadata is ignored. -/
def compareVersions (x y : Version) : Int :=
  let t := tripleCmp x y
  if t = 0 then
    let rc := natCmpOpt x.prerelease y.prerelease
    if rc = 0 then 0
    else if x.prerelease = none then 1
    else if y.prerelease = none then -1
    else rc
  else t

/-- Embeds `VSUpdate.compversion_local`: `semver.compare` wrapped in a
`try/except` that logs and returns the empty string (modelled `none`) when
either version string fails to parse. -/
def compversion_local (ver_loc ver_online : String) : Option Int :=
  match parseVersion ver_loc, parseVersion ver_online with
  | some a, some b => some (compareVersions a b)
  | _, _ => none

/-! ### A declarative statement of the semver precedence order, to check the
comparator against. -/
/-- Lexicographic order on character lists, stated declaratively. -/
inductive CharsLt : List Char → List Char → Prop
  | nil (c : Char) (cs : List Char) : CharsLt [] (c :: cs)
  | head {a b : Char} (as bs : List Char) : a.toNat < b.toNat → CharsLt (a :: as) (b :: bs)
  | tail {a : Char} {as bs : List Char} : CharsLt as bs → CharsLt (a :: as) (a :: bs)

/-- Lexicographic order on strings, stated declaratively. -/
def StrLt (a b : String) : Prop := CharsLt a.toList b.toList

/-- One prerelease identifier is below another: numerically for two numeric
identifiers, any numeric identifier below any alphanumeric one, and
alphanumeric identifiers in lexicographic string order. -/
def IdentLt (a b : String) : Prop :=
  (pyIsDigits a = true ∧ pyIsDigits b = true ∧ pyToNat a < pyToNat b)
  ∨ (pyIsDigits a = true ∧ ¬ pyIsDigits b = true)
  ∨ (¬ pyIsDigits a = true ∧ ¬ pyIsDigits b = true ∧ StrLt a b)

/-- Two prerelease identifiers have equal precedence. -/
def IdentEq (a b : String) : Prop :=
  (pyIsDigits a = true ∧ pyIsDigits b = true ∧ pyToNat a = pyToNat b)
  ∨ (¬ pyIsDigits a = true ∧ ¬ pyIsDigits b = true ∧ a = b)

/-- Lexicographic order on prerelease identifier lists, a strict prefix
being below the longer list. -/
def PartsLt : List String → List String → Prop
  | _, [] => False
  | [], _ :: _ => True
  | a :: as, b :: bs => IdentLt a b ∨ (IdentEq a b ∧ PartsLt as bs)

def PartsEq : List String → List String → Prop
  | [], [] => True
  | a :: as, b :: bs => IdentEq a b ∧ PartsEq as bs
  | _, _ => False

def TripleLt (x y : Version) : Prop :=
  x.major < y.major ∨ (x.major = y.major ∧
    (x.minor < y.minor ∨ (x.minor = y.minor ∧ x.patch < y.patch)))

def TripleEq (x y : Version) : Prop :=
  x.major = y.major ∧ x.minor = y.minor ∧ x.patch = y.patch

/-- Prerelease precedence: a version with a prerelease is below the same
version without one. -/
def PreLt : Option String → Option String → Prop
  | some a, some b => PartsLt (splitDots a) (splitDots b)
  | some _, none => True
  | none, _ => False

def PreEq : Option String → Option String → Prop
  | none, none => True
  | some a, some b => PartsEq (splitDots a) (splitDots b)
  | _, _ => False

/-- Semver precedence (build metadata ignored). -/
def VersionLt (x y : Version) : Prop :=
  TripleLt x y ∨ (TripleEq x y ∧ PreLt x.prerelease y.prerelease)

/-- Semver precedence-equality (build metadata ignored). -/
def VersionEq (x y : Version) : Prop :=
  TripleEq x y ∧ PreEq x.prerelease y.prerelease

/-- Well-formed prerelease part, as guaranteed by `parseVersion`. -/
def WFPre (v : Version) : Prop :=
  ∀ p, v.prerelease = some p → (splitDots p).all validPreIdent = true

/-! ## `verif_formatversion` and `compversion_first_min_version` -/
/-- One component fix of `VSUpdate.verif_formatversion`: a two-character
component starting with `0` loses its leading zero. -/
def fixLeadZero (s : String) : String :=
  if s.length = 2 ∧ s.toList.head? = some '0' then String.mk (s.toList.drop 1) else s

/-- Embeds `VSUpdate.verif_formatversion`: splits both versions on dots, strips
leading zeros from two-character components, and rebuilds from the first
three components; fewer than three components raises an `IndexError`
(modelled `none`, caught by the caller). -/
def verif_formatversion (v1 v2 : String) : Option (String × String) :=
  match (splitDots v1).map fixLeadZero, (splitDots v2).map fixLeadZero with
  | a0 :: a1 :: a2 :: _, b0 :: b1 :: b2 :: _ =>
    some (a0 ++ "." ++ a1 ++ "." ++ a2, b0 ++ "." ++ b1 ++ "." ++ b2)
  | _, _ => none

/-- Embeds `VSUpdate.compversion_first_min_version(ver_locale, first_min_ver)`:
normalises both strings with `verif_formatversion(first_min_ver,
ver_locale)` and compares them with `semver.compare`; any exception
(including `first_min_ver` being `None`) yields the empty string
(modelled `none`). -/
def compversion_first_min_version (ver_locale : String) (first_min_ver : Option String) :
    Option Int :=
  match first_min_ver with
  | none => none
  | some fm =>
    match verif_formatversion fm ver_locale with
    | none => none
    | some (x, y) =>
      match parseVersion x, parseVersion y with
      | some a, some b => some (compareVersions a b)
      | _, _ => none

/-! ## The per-mod update step of `VSUpdate.update_mods` -/
/-- Python `re.sub(r"\s", "", s)` restricted to ASCII whitespace. -/
def pyIsSpaceChar (c : Char) : Bool :=
  c = ' ' || c = '\t' || c = '\n' || c = '\r' || c = '\x0b' || c = '\x0c'

def pySubWhitespace (s : String) : String :=
  String.mk (s.toList.filter (fun c => !pyIsSpaceChar c))

/-- Python `str.lower` restricted to ASCII. -/
def pyLower (s : String) : String := String.mk (s.toList.map Char.toLower)

/-- Python `s.replace(" ", "")`. -/
def pyRemoveSpaces (s : String) : String := String.mk (s.toList.filter (fun c => c ≠ ' '))

/-- Python `ver.split("v", 1)[1]`: the part after the first `v`, `none`
(an `IndexError`) when no `v` occurs. -/
def splitAfterV : List Char → Option (List Char)
  | [] => none
  | c :: rest => if c = 'v' then some rest else splitAfterV rest

/-- The `for ver in mod_game_versions: first_min_ver = ver.split("v", 1)[1]`
loop: keeps the last tag's suffix, raising (modelled `.error`) on a tag
without `v`. -/
def tagMinVersion (tags : List String) : Except Unit (Option String) :=
  tags.foldl
    (fun acc t =>
      match acc with
      | .error e => .error e
      | .ok _ =>
        match splitAfterV t.toList with
        | some r => .ok (some (String.mk r))
        | none => .error ())
    (.ok none)

/-- The fixed repository host (`mods_url` in the source). -/
def mods_url : String := "https://mods.vintagestory.at"

def api_url : String := mods_url ++ "/api/mod"

def show_url : String := mods_url ++ "/show/mod"

def modApiUrl (modid : String) : String := api_url ++ "/" ++ modid

def downloadLink (mainfile : String) : String := mods_url ++ "/" ++ mainfile

def changelogUrl (assetid : String) : String := show_url ++ "/" ++ assetid ++ "#tab-files"

structure UpdateConfig where
  force_update : String
  disable_mod_dev : String
  gamever_limit : String
deriving Repr, DecidableEq

/-- Fields of `resp_dict["mod"]["releases"][0]` (plus the asset id) that
`update_mods` reads. -/
structure Release where
  assetid : String
  modversion : String
  mainfile : String
  tags : List String
deriving Repr, DecidableEq

/-- Outcome of contacting the per-mod API endpoint. -/
inductive ApiResponse
  | ok (r : Release)
  | urlError
  | readTimeout
  | keyError
  | otherError
deriving Repr, DecidableEq

/-- Environment of one mod's processing: the API outcome, whether the
download response carries a usable `Content-length`, and whether deleting
the old file succeeds (a `PermissionError` otherwise). -/
structure ModEnv where
  api : ApiResponse
  contentLengthOk : Bool
  removeOk : Bool
deriving Repr, DecidableEq

/-- The metadata `update_mods` extracts for a mod file. -/
structure LocalMod where
  name : String
  modid : String
  version : String
deriving Repr, DecidableEq

/-- Observable outcome of one iteration of the `update_mods` loop:
the HTTP requests issued in order, whether the download branch was entered,
whether the new release was actually fetched (`wget.download` ran), and
whether the program exited (`sys.exit` after a `PermissionError`). -/
structure StepResult where
  requests : List String
  triggered : Bool
  downloaded : Bool
  aborted : Bool
deriving Repr, DecidableEq

/-- The modid actually queried: lines 593-594 re-derive it from the name
when the extracted modid is empty. -/
def queriedModid (m : LocalMod) : String :=
  if m.modid = "" then pyLower (pySubWhitespace m.name) else m.modid

/-- The full condition under which the download branch (lines 644-651) is
entered for a successfully fetched API response. -/
def DownloadCond (cfg : UpdateConfig) (m : LocalMod) (r : Release) : Prop :=
  (∃ pre, parseVersion r.modversion = some pre ∧
    (cfg.disable_mod_dev = "false" ∨ pre.prerelease = none)) ∧
  (∃ fm, tagMinVersion r.tags = Except.ok fm ∧
    (compversion_first_min_version cfg.gamever_limit fm = some (-1) ∨
     compversion_first_min_version cfg.gamever_limit fm = some 0)) ∧
  (compversion_local m.version r.modversion = some (-1) ∨
    (compversion_local m.version r.modversion = some 0 ∧ pyLower cfg.force_update = "true"))

/-- The body of an `update_mods` iteration after the API request on
`mod_url_api` succeeded and its JSON fields were read. -/
def update_step_ok (cfg : UpdateConfig) (m : LocalMod) (r : Release) (env : ModEnv) : StepResult :=
  match parseVersion r.modversion with
  | none =>
    ⟨[modApiUrl (queriedModid m), modApiUrl (queriedModid m)], false, false, false⟩
  | some pre =>
    if cfg.disable_mod_dev = "false" ∨ pre.prerelease = none then
      match tagMinVersion r.tags with
      | .error _ =>
        ⟨[modApiUrl (queriedModid m), modApiUrl (queriedModid m)], false, false, false⟩
      | .ok first_min_ver =>
        if compversion_first_min_version cfg.gamever_limit first_min_ver = some (-1) ∨
            compversion_first_min_version cfg.gamever_limit first_min_ver = some 0 then
          if compversion_local m.version r.modversion = some (-1) ∨
              (compversion_local m.version r.modversion = some 0 ∧
                pyLower cfg.force_update = "true") then
            if env.contentLengthOk then
              if env.removeOk then
                ⟨[modApiUrl (queriedModid m), modApiUrl (queriedModid m),
                  downloadLink r.mainfile, downloadLink r.mainfile,
                  changelogUrl r.assetid, changelogUrl r.assetid], true, true, false⟩
              else
                ⟨[modApiUrl (queriedModid m), modApiUrl (queriedModid m),
                  downloadLink r.mainfile], true, false, true⟩
            else
              ⟨[modApiUrl (queriedModid m), modApiUrl (queriedModid m),
                downloadLink r.mainfile], true, false, false⟩
          else ⟨[modApiUrl (queriedModid m), modApiUrl (queriedModid m)], false, false, false⟩
        else ⟨[modApiUrl (queriedModid m), modApiUrl (queriedModid m)], false, false, false⟩
    else ⟨[modApiUrl (queriedModid m), modApiUrl (queriedModid m)], false, false, false⟩

/-- One iteration of the `for mod_maj in self.liste_mod_maj_filename` loop
of `VSUpdate.update_mods` (lines 589-712), for a mod whose metadata
extraction succeeded. -/
def update_step (cfg : UpdateConfig) (m : LocalMod) (env : ModEnv) : StepResult :=
  match env.api with
  | .ok r => update_step_ok cfg m r env
  | .urlError => ⟨[modApiUrl (queriedModid m)], false, false, false⟩
  | .readTimeout =>
    ⟨[modApiUrl (queriedModid m), modApiUrl (queriedModid m)], false, false, false⟩
  | .keyError =>
    ⟨[modApiUrl (queriedModid m), modApiUrl (queriedModid m)], false, false, false⟩
  | .otherError =>
    ⟨[modApiUrl (queriedModid m), modApiUrl (queriedModid m)], false, false, false⟩

/-! ## The update loop -/
/-- Outcome of a whole `update_mods` pass: the mod files actually iterated,
and whether the pass was cut short by `sys.exit`. -/
structure PassResult where
  processed : List String
  aborted : Bool
deriving Repr, DecidableEq

/-- The `for mod_maj in self.liste_mod_maj_filename` loop: each iteration's
exceptions are caught by the `try/except` of lines 600-712 and the loop
continues, except for the `sys.exit` on line 679 (a `PermissionError` while
deleting the old file), which terminates the whole program. -/
def update_mods_loop (cfg : UpdateConfig) (info : String → LocalMod) (envs : String → ModEnv) :
    List String → PassResult
  | [] => ⟨[], false⟩
  | f :: fs =>
    if (update_step cfg (info f) (envs f)).aborted then ⟨[f], true⟩
    else
      ⟨f :: (update_mods_loop cfg info envs fs).processed,
        (update_mods_loop cfg info envs fs).aborted⟩

/-- Tests that `p` is a prefix of `s` (boolean, on the character lists). -/
def strHasPre (p s : String) : Bool := p.toList.isPrefixOf s.toList

def endsWithSlash (a : String) : Bool := a.toList.getLast? = some '/'

/-- POSIX `os.path.join(a, b)` for two components, as used by
`ModInfo.get_url` on line 837. -/
def posixJoin (a b : String) : String :=
  if strHasPre "/" b then b
  else if a = "" ∨ endsWithSlash a = true then a ++ b
  else a ++ "/" ++ b

/-- Embeds `urllib`'s scheme detection (`splittype`): the URL starts with a
nonempty run of characters other than `/` and `:`, followed by `:`.
`urllib.request.Request` raises `ValueError: unknown url type` otherwise,
so such a URL is never actually requested. -/
def hasUrlScheme (s : String) : Bool :=
  !(s.toList.takeWhile fun c => !(c = ':' || c = '/')).isEmpty &&
    ((s.toList.drop (s.toList.takeWhile fun c => !(c = ':' || c = '/')).length).head? = some ':')

/-- The mod page URL computed by `ModInfo.get_url` (lines 847-850) from the
API response's `assetid` and `urlalias` fields. -/
def getUrlResult (assetid urlalias : String) : String :=
  if urlalias = "None" then api_url ++ "/" ++ assetid else mods_url ++ "/" ++ urlalias

/-! ## `get_changelog` cleanup (C7) -/
/-- Python `list.remove(x)`: drop the first occurrence. -/
def pyRemoveFirst (x : String) : List String → List String
  | [] => []
  | y :: ys => if y = x then ys else y :: pyRemoveFirst x ys

/-- The `for entry in lst_log_desc: if entry == "": lst_log_desc.remove(entry)`
loop of lines 514-516, with Python's list-iterator semantics: the cursor
advances every iteration even when an element was removed. -/
def removeEmptiesFrom (l : List String) (i : Nat) : List String :=
  if h : i < l.length then
    removeEmptiesFrom (if l.get ⟨i, h⟩ = "" then pyRemoveFirst "" l else l) (i + 1)
  else l
termination_by l.length - i
decreasing_by
  have hle : ∀ l2 : List String, (pyRemoveFirst "" l2).length ≤ l2.length := by
    intro l2
    induction l2 with
    | nil => exact Nat.le_refl 0
    | cons y ys ih =>
      unfold pyRemoveFirst
      split
      · simp
      · simpa using ih
  have hle2 := hle l
  split <;> omega

def isWordCharB (c : Char) : Bool := c.isAlphanum || c = '_'

/-- Embeds `re.sub(r"^[\W*]*", "", item)` of line 520-521: strip the leading run
of non-word characters (`*` is already a non-word character). -/
def stripLeadNonWord (s : String) : String :=
  String.mk (s.toList.dropWhile fun c => !isWordCharB c)

/-- The loop of lines 518-522: for each item (by iterator position), the
element at the FIRST index whose value equals the item is replaced by the
stripped item. -/
def stripLoopFrom (l : List String) (i : Nat) : List String :=
  if h : i < l.length then
    stripLoopFrom
      (l.set (l.findIdx fun y => y = l.get ⟨i, h⟩) (stripLeadNonWord (l.get ⟨i, h⟩))) (i + 1)
  else l
termination_by l.length - i
decreasing_by simp only [List.length_set]; omega

/-- Cleanup performed by `get_changelog` on the split changelog lines. -/
def changelogClean (lines : List String) : List String :=
  stripLoopFrom (removeEmptiesFrom lines 0) 0

/-- A value of the heterogeneous `log` dict of `get_changelog`. -/
inductive LogVal
  | lines (l : List String)
  | url (u : String)
deriving Repr, DecidableEq

def dictInsert (k : String) (v : LogVal) : List (String × LogVal) → List (String × LogVal)
  | [] => [(k, v)]
  | (k2, v2) :: rest => if k2 = k then (k, v) :: rest else (k2, v2) :: dictInsert k v rest

def dictLookup (k : String) : List (String × LogVal) → Option LogVal
  | [] => none
  | (k2, v2) :: rest => if k2 = k then some v2 else dictLookup k rest

/-- Embeds `VSUpdate.get_changelog` after a successful fetch, on the paragraph
branch: `log[last_version] = cleaned lines; log["url"] = url`. -/
def get_changelog_ok (last_version url : String) (lines : List String) :
    List (String × LogVal) :=
  dictInsert "url" (LogVal.url url)
    (dictInsert last_version (LogVal.lines (changelogClean lines)) [])

/-! ## `LanguageHandler.get` (C9) -/
/-- A language handler: the loaded language file and the `en_US` fallback
file, each a JSON object of translations. -/
structure LanguageHandler where
  i18n : List (String × String)
  default_i18n : List (String × String)

def lookupStr (k : String) : List (String × String) → Option String
  | [] => none
  | (k2, v) :: rest => if k2 = k then some v else lookupStr k rest

/-- Embeds `LanguageHandler.get_default`: looks the key up in the `en_US` file
(`none` models a `KeyError`). -/
def LanguageHandler.get_default (h : LanguageHandler) (key : String) : Option String :=
  lookupStr key h.default_i18n

/-- Embeds `LanguageHandler.get` (lines 39-42): `if key in list(self.i18n[key])`
tests membership of the key among the CHARACTERS of its own translation,
returning the loaded translation only on success and the `en_US` default
otherwise; a key missing from the loaded file raises `KeyError` (`none`). -/
def LanguageHandler.get (h : LanguageHandler) (key : String) : Option String :=
  match lookupStr key h.i18n with
  | none => none
  | some v =>
    if v.toList.any (fun c => String.mk [c] == key) then some v
    else h.get_default key

/-! ## `mods_exclusion`, `mods_list` and the frame property (C10) -/
/-- Stable insertion used to model Python `list.sort()`. -/
def insertSortedBy (ltb : String → String → Bool) (x : String) : List String → List String
  | [] => [x]
  | y :: ys => if ltb y x then y :: insertSortedBy ltb x ys else x :: y :: ys

/-- Python `list.sort()` (stable, ascending under the strict order `ltb`). -/
def pySortBy (ltb : String → String → Bool) : List String → List String
  | [] => []
  | x :: xs => insertSortedBy ltb x (pySortBy ltb xs)

/-- Embeds `VSUpdate.mods_exclusion` (lines 553-569): collects the non-empty
`modN` values of the `Mod_Exclusion` section, sorting after each one. -/
def mods_exclusion (vals : List String) : List String :=
  vals.foldl (fun acc v => pySortBy strLtB (if v ≠ "" then acc ++ [v] else acc)) []

/-- Embeds `VSUpdate.mods_list` (lines 571-583): removes each excluded filename
(first occurrence) from the complete mod list. -/
def mods_list (exclusions complete : List String) : List String :=
  exclusions.foldl (fun l e => if e ∈ l then pyRemoveFirst e l else l) complete

/-- The `liste_mod_maj_filename.sort(key=lambda s: s.casefold())` of line
587 (casefold modelled as ASCII lowercasing). -/
def sortCasefold (l : List String) : List String :=
  pySortBy (fun a b => charListLt (pyLower a).toList (pyLower b).toList) l

/-- The whole `update_mods` pass: sort, then iterate. -/
def update_mods_pass (cfg : UpdateConfig) (info : String → LocalMod) (envs : String → ModEnv)
    (files : List String) : PassResult :=
  update_mods_loop cfg info envs (sortCasefold files)

/-- The mod files whose on-disk archive the pass replaces (old file deleted
by `os.remove`, new release fetched by `wget.download`). -/
def updatedFiles (cfg : UpdateConfig) (info : String → LocalMod) (envs : String → ModEnv)
    (files : List String) : List String :=
  (update_mods_pass cfg info envs files).processed.filter
    (fun f => (update_step cfg (info f) (envs f)).downloaded)

/-! ## Regex-based metadata extraction: `extract_modinfo` (C4, C8)

The modinfo regexes all have the shape
`"{0,1}KEY"{0,1} {0,}: {0,}"(.*)",{0,}` with `re.IGNORECASE`. Since `KEY`
starts with a letter, the optional quotes and the space runs allow no
backtracking, and the greedy `(.*)` (which cannot cross a newline) must end
at the last `"` of the line, after which `,{0,}` always matches. -/
/-- Case-insensitive (ASCII) match of a literal at the head of the input,
returning the unconsumed characters. -/
def matchKeyCI : List Char → List Char → Option (List Char)
  | [], s => some s
  | _ :: _, [] => none
  | k :: ks, c :: cs => if c.toLower = k.toLower then matchKeyCI ks cs else none

/-- The characters before the LAST `"` of the list, if any. -/
def lastQuoteSplit : List Char → Option (List Char)
  | [] => none
  | c :: cs =>
    match lastQuoteSplit cs with
    | some r => some (c :: r)
    | none => if c = '"' then some [] else none

/-- The capture of `"(.*)",{0,}` starting after the opening quote: up to
the last `"` of the current line. -/
def captureLast (s : List Char) : Option (List Char) :=
  lastQuoteSplit (s.takeWhile fun c => c ≠ '\n')

/-- Match of `"{0,1}KEY"{0,1} {0,}: {0,}"(.*)",{0,}` at the current
position, returning the capture. -/
def matchEntryAt (key : List Char) (s : List Char) : Option (List Char) :=
  match matchKeyCI key (match s with | '"' :: rest => rest | _ => s) with
  | none => none
  | some s2 =>
    match (match s2 with | '"' :: rest => rest | _ => s2).dropWhile (fun c => c = ' ') with
    | ':' :: s5 =>
      match s5.dropWhile (fun c => c = ' ') with
      | '"' :: s7 => captureLast s7
      | _ => none
    | _ => none

/-- Embeds `re.search`: the leftmost position where the pattern matches. -/
def searchEntryAux (key : List Char) : List Char → Option (List Char)
  | [] => none
  | c :: rest =>
    match matchEntryAt key (c :: rest) with
    | some r => some r
    | none => searchEntryAux key rest

def searchEntry (key content : String) : Option String :=
  (searchEntryAux key.toList content.toList).map String.mk

structure ModInfoData where
  name : String
  modid : String
  version : String
  description : String
deriving Repr, DecidableEq

/-- The `.zip` branch of `VSUpdate.extract_modinfo` (lines 335-388) on the
decoded `modinfo.json` text. When name and version both match, the values
are the regex captures, the modid falls back to the name with spaces
removed and lowercased, and the description falls back to the empty
string. When a required capture is missing the primary pass raises; the
`json_correction` fallback then raises `IndexError` from its `group(2)`
calls as soon as any of its four identical regexes matches, and the
subsequent `return` hits unbound locals (`none`); only when none of the
four regexes matches at all does `json_correction` return the instance's
initial empty strings. -/
def extract_modinfo_zip (content : String) : Option ModInfoData :=
  match searchEntry "name" content, searchEntry "version" content with
  | some n, some v =>
    some ⟨n,
      (match searchEntry "modid" content with
       | some m => m
       | none => pyLower (pyRemoveSpaces n)),
      v,
      ((searchEntry "description" content).getD "")⟩
  | _, _ =>
    if searchEntry "name" content = none ∧ searchEntry "version" content = none ∧
        searchEntry "modid" content = none ∧ searchEntry "description" content = none then
      some ⟨"", "", "", ""⟩
    else none

/-- Search for `(namespace )(\w*)` (IGNORECASE): the run of word characters
after the leftmost occurrence of the literal `namespace `. -/
def searchNamespaceAux : List Char → Option (List Char)
  | [] => none
  | c :: rest =>
    match matchKeyCI "namespace ".toList (c :: rest) with
    | some s2 => some (s2.takeWhile isWordCharB)
    | none => searchNamespaceAux rest

def searchCsName (content : String) : Option String :=
  (searchNamespaceAux content.toList).map String.mk

/-- Match of `(Version\s=\s")([\d.]*)"` at the current position. -/
def matchCsVersionAt (s : List Char) : Option (List Char) :=
  match matchKeyCI "version".toList s with
  | none => none
  | some rest =>
    match rest with
    | w1 :: '=' :: w2 :: '"' :: s4 =>
      if pyIsSpaceChar w1 && pyIsSpaceChar w2 then
        match s4.drop (s4.takeWhile fun c => c.isDigit || c = '.').length with
        | '"' :: _ => some (s4.takeWhile fun c => c.isDigit || c = '.')
        | _ => none
      else none
    | _ => none

def searchCsVersionAux : List Char → Option (List Char)
  | [] => none
  | c :: rest =>
    match matchCsVersionAt (c :: rest) with
    | some r => some r
    | none => searchCsVersionAux rest

def searchCsVersion (content : String) : Option String :=
  (searchCsVersionAux content.toList).map String.mk

/-- The characters before the LAST `",` pair of the list, if any. -/
def lastQuoteCommaSplit : List Char → Option (List Char)
  | [] => none
  | c :: cs =>
    match lastQuoteCommaSplit cs with
    | some r => some (c :: r)
    | none =>
      match c, cs with
      | '"', ',' :: _ => some []
      | _, _ => none

/-- Match of `Description = "(.*)",` (IGNORECASE) at the current position:
the greedy capture runs to the last `",` of the line. -/
def matchCsDescAt (s : List Char) : Option (List Char) :=
  match matchKeyCI "description = \"".toList s with
  | none => none
  | some s2 => lastQuoteCommaSplit (s2.takeWhile fun c => c ≠ '\n')

def searchCsDescAux : List Char → Option (List Char)
  | [] => none
  | c :: rest =>
    match matchCsDescAt (c :: rest) with
    | some r => some r
    | none => searchCsDescAux rest

def searchCsDesc (content : String) : Option String :=
  (searchCsDescAux content.toList).map String.mk

/-- The `.cs` branch of `extract_modinfo` (lines 389-405): the namespace
identifier becomes both name and modid, with the `Version` and
`Description` captures; a missing capture raises an uncaught `TypeError`
(`none`). -/
def extract_modinfo_cs (content : String) : Option ModInfoData :=
  match searchCsName content, searchCsVersion content, searchCsDesc content with
  | some n, some v, some d => some ⟨n, n, v, d⟩
  | _, _, _ => none

/-- The modid with which `update_mods` queries the API for a zip mod whose
`modinfo.json` text is `content` (lines 590-596). -/
def queried_modid_of_content (content : String) : Option String :=
  (extract_modinfo_zip content).map fun d => queriedModid ⟨d.name, d.modid, d.version⟩

/-! ### Correctness of the comparator against the declarative order -/
theorem natCmpI_eq_neg_one {a b : Nat} : natCmpI a b = -1 ↔ a < b := by
  by_cases h1 : a < b <;> by_cases h2 : b < a <;> simp [natCmpI, h1, h2] <;> omega

theorem natCmpI_eq_zero {a b : Nat} : natCmpI a b = 0 ↔ a = b := by
  by_cases h1 : a < b <;> by_cases h2 : b < a <;> simp [natCmpI, h1, h2] <;> omega

theorem natCmpI_eq_one {a b : Nat} : natCmpI a b = 1 ↔ b < a := by
  by_cases h1 : a < b <;> by_cases h2 : b < a <;> simp [natCmpI, h1, h2] <;> omega

theorem charToNat_inj {a b : Char} (h : a.toNat = b.toNat) : a = b := by
  have h2 : a.val.toBitVec = b.val.toBitVec := BitVec.toNat_injective h
  have h3 : a.val = b.val := by
    rcases ha : a.val with ⟨bv1⟩
    rcases hb : b.val with ⟨bv2⟩
    rw [ha, hb] at h2
    simp only at h2
    rw [h2]
  exact Char.ext h3

theorem charsLt_irrefl : ∀ as : List Char, ¬ CharsLt as as
  | [], h => nomatch h
  | _ :: as, h => by
    cases h with
    | head _ _ hlt => omega
    | tail h2 => exact charsLt_irrefl as h2

theorem charsLt_asymm : ∀ {as bs : List Char}, CharsLt as bs → ¬ CharsLt bs as := by
  intro as bs h
  induction h with
  | nil c cs => intro h2; exact nomatch h2
  | head as bs hlt =>
    intro h2
    cases h2 with
    | head _ _ hlt2 => omega
    | tail _ => omega
  | tail h3 ih =>
    intro h2
    cases h2 with
    | head _ _ hlt2 => omega
    | tail h4 => exact ih h4

theorem charsLt_trichotomy : ∀ as bs : List Char, CharsLt as bs ∨ as = bs ∨ CharsLt bs as
  | [], [] => Or.inr (Or.inl rfl)
  | [], b :: bs => Or.inl (CharsLt.nil b bs)
  | a :: as, [] => Or.inr (Or.inr (CharsLt.nil a as))
  | a :: as, b :: bs => by
    rcases Nat.lt_trichotomy a.toNat b.toNat with h | h | h
    · exact Or.inl (CharsLt.head as bs h)
    · have hab : a = b := charToNat_inj h
      subst hab
      rcases charsLt_trichotomy as bs with h2 | h2 | h2
      · exact Or.inl (CharsLt.tail h2)
      · exact Or.inr (Or.inl (by rw [h2]))
      · exact Or.inr (Or.inr (CharsLt.tail h2))
    · exact Or.inr (Or.inr (CharsLt.head bs as h))

theorem charListLt_iff : ∀ as bs : List Char, charListLt as bs = true ↔ CharsLt as bs
  | [], [] => ⟨fun h => by simp [charListLt] at h, fun h => nomatch h⟩
  | [], b :: bs => ⟨fun _ => CharsLt.nil b bs, fun _ => rfl⟩
  | _ :: _, [] => ⟨fun h => by simp [charListLt] at h, fun h => nomatch h⟩
  | a :: as, b :: bs => by
    simp only [charListLt]
    rcases Nat.lt_trichotomy a.toNat b.toNat with h | h | h
    · rw [if_pos h]
      exact ⟨fun _ => CharsLt.head as bs h, fun _ => rfl⟩
    · have hab : a = b := charToNat_inj h
      subst hab
      rw [if_neg (by omega), if_neg (by omega)]
      constructor
      · intro hh
        exact CharsLt.tail ((charListLt_iff as bs).mp hh)
      · intro hh
        cases hh with
        | head _ _ hlt => omega
        | tail h3 => exact (charListLt_iff as bs).mpr h3
    · rw [if_neg (by omega), if_pos h]
      constructor
      · intro hh
        exact absurd hh (by simp)
      · intro hh
        cases hh with
        | head _ _ hlt => omega
        | tail h3 => omega

theorem strLtB_iff {a b : String} : strLtB a b = true ↔ StrLt a b :=
  charListLt_iff a.toList b.toList

theorem strLt_asymm {a b : String} (h : StrLt a b) : ¬ StrLt b a := charsLt_asymm h

theorem strLt_irrefl (a : String) : ¬ StrLt a a := charsLt_irrefl a.toList

theorem strLt_trichotomy (a b : String) : StrLt a b ∨ a = b ∨ StrLt b a := by
  rcases charsLt_trichotomy a.toList b.toList with h | h | h
  · exact Or.inl h
  · exact Or.inr (Or.inl (String.toList_inj.mp h))
  · exact Or.inr (Or.inr h)

theorem strCmp_spec (a b : String) :
    (strCmp a b = -1 ↔ StrLt a b) ∧ (strCmp a b = 0 ↔ a = b) ∧ (strCmp a b = 1 ↔ StrLt b a) := by
  unfold strCmp
  rcases strLt_trichotomy a b with h | h | h
  · have h1 : strLtB a b = true := strLtB_iff.mpr h
    have h2 : ¬ StrLt b a := strLt_asymm h
    have h3 : a ≠ b := fun he => absurd (he ▸ h) (strLt_irrefl b)
    rw [h1, if_pos rfl]
    exact ⟨⟨fun _ => h, fun _ => rfl⟩, ⟨fun hh => absurd hh (by decide), fun hh => absurd hh h3⟩,
      ⟨fun hh => absurd hh (by decide), fun hh => absurd hh h2⟩⟩
  · subst h
    have h1 : strLtB a a = false := by
      rcases hb : strLtB a a with _ | _
      · rfl
      · exact absurd (strLtB_iff.mp hb) (strLt_irrefl a)
    rw [h1, if_neg (by simp), if_neg (by simp)]
    exact ⟨⟨fun hh => absurd hh (by decide), fun hh => absurd hh (strLt_irrefl a)⟩,
      ⟨fun _ => rfl, fun _ => rfl⟩,
      ⟨fun hh => absurd hh (by decide), fun hh => absurd hh (strLt_irrefl a)⟩⟩
  · have h1 : strLtB b a = true := strLtB_iff.mpr h
    have h2 : ¬ StrLt a b := strLt_asymm h
    have h12 : strLtB a b = false := by
      rcases hb : strLtB a b with _ | _
      · rfl
      · exact absurd (strLtB_iff.mp hb) h2
    have h3 : a ≠ b := fun he => absurd (he ▸ h) (strLt_irrefl b)
    rw [h1, h12, if_neg (by simp), if_pos rfl]
    exact ⟨⟨fun hh => absurd hh (by decide), fun hh => absurd hh h2⟩,
      ⟨fun hh => absurd hh (by decide), fun hh => absurd hh h3⟩,
      ⟨fun _ => h, fun _ => rfl⟩⟩

theorem cmpTag_spec (a b : String) :
    (cmpPrereleaseTag a b = -1 ↔ IdentLt a b) ∧ (cmpPrereleaseTag a b = 0 ↔ IdentEq a b) ∧
    (cmpPrereleaseTag a b = 1 ↔ IdentLt b a) := by
  unfold cmpPrereleaseTag IdentLt IdentEq
  by_cases ha : pyIsDigits a = true <;> by_cases hb : pyIsDigits b = true
  · simp [ha, hb, natCmpI_eq_neg_one, natCmpI_eq_zero, natCmpI_eq_one]
  · simp [ha, hb]
  · simp [ha, hb]
  · simp [ha, hb, (strCmp_spec a b).1, (strCmp_spec a b).2.1, (strCmp_spec a b).2.2]

theorem cmpTag_trichotomy (a b : String) :
    cmpPrereleaseTag a b = -1 ∨ cmpPrereleaseTag a b = 0 ∨ cmpPrereleaseTag a b = 1 := by
  unfold cmpPrereleaseTag natCmpI strCmp
  repeat' split
  all_goals omega

theorem identEq_symm {a b : String} (h : IdentEq a b) : IdentEq b a := by
  unfold IdentEq at h ⊢
  rcases h with ⟨x, y, z⟩ | ⟨x, y, z⟩
  · exact Or.inl ⟨y, x, z.symm⟩
  · exact Or.inr ⟨y, x, z.symm⟩

theorem natCmpParts_trichotomy : ∀ as bs : List String,
    natCmpParts as bs = -1 ∨ natCmpParts as bs = 0 ∨ natCmpParts as bs = 1
  | [], [] => by simp [natCmpParts]
  | [], _ :: _ => by simp [natCmpParts]
  | _ :: _, [] => by simp [natCmpParts]
  | a :: as, b :: bs => by
    have ih := natCmpParts_trichotomy as bs
    rcases cmpTag_trichotomy a b with h | h | h
    · left; simp [natCmpParts, h]
    · simpa [natCmpParts, h] using ih
    · right; right; simp [natCmpParts, h]

theorem natCmpParts_spec : ∀ as bs : List String,
    (natCmpParts as bs = -1 ↔ PartsLt as bs) ∧ (natCmpParts as bs = 0 ↔ PartsEq as bs) ∧
    (natCmpParts as bs = 1 ↔ PartsLt bs as)
  | [], [] => by simp [natCmpParts, PartsLt, PartsEq]
  | [], _ :: _ => by simp [natCmpParts, PartsLt, PartsEq]
  | _ :: _, [] => by simp [natCmpParts, PartsLt, PartsEq]
  | a :: as, b :: bs => by
    obtain ⟨ih1, ih2, ih3⟩ := natCmpParts_spec as bs
    obtain ⟨c1, c2, c3⟩ := cmpTag_spec a b
    rcases cmpTag_trichotomy a b with h | h | h
    · have hl : IdentLt a b := c1.mp h
      have hne : ¬ IdentEq a b := fun he => by have := c2.mpr he; omega
      have hnes : ¬ IdentEq b a := fun he => hne (identEq_symm he)
      have hnl : ¬ IdentLt b a := fun hx => by have := c3.mpr hx; omega
      simp [natCmpParts, PartsLt, PartsEq, h, hl, hne, hnes, hnl]
    · have he : IdentEq a b := c2.mp h
      have hes : IdentEq b a := identEq_symm he
      have hnl : ¬ IdentLt a b := fun hx => by have := c1.mpr hx; omega
      have hnl2 : ¬ IdentLt b a := fun hx => by have := c3.mpr hx; omega
      simp [natCmpParts, PartsLt, PartsEq, h, he, hes, hnl, hnl2, ih1, ih2, ih3]
    · have hl : IdentLt b a := c3.mp h
      have hne : ¬ IdentEq a b := fun he => by have := c2.mpr he; omega
      have hnes : ¬ IdentEq b a := fun he => hne (identEq_symm he)
      have hnl : ¬ IdentLt a b := fun hx => by have := c1.mpr hx; omega
      simp [natCmpParts, PartsLt, PartsEq, h, hl, hne, hnes, hnl]

theorem tripleCmp_spec (x y : Version) :
    (tripleCmp x y = -1 ↔ TripleLt x y) ∧ (tripleCmp x y = 0 ↔ TripleEq x y) ∧
    (tripleCmp x y = 1 ↔ TripleLt y x) := by
  simp only [tripleCmp]
  rcases Nat.lt_trichotomy x.major y.major with h | h | h
  · rw [natCmpI_eq_neg_one.mpr h, if_neg (by decide)]
    unfold TripleLt TripleEq
    omega
  · rw [natCmpI_eq_zero.mpr h, if_pos rfl]
    rcases Nat.lt_trichotomy x.minor y.minor with h2 | h2 | h2
    · rw [natCmpI_eq_neg_one.mpr h2, if_neg (by decide)]
      unfold TripleLt TripleEq
      omega
    · rw [natCmpI_eq_zero.mpr h2, if_pos rfl]
      rcases Nat.lt_trichotomy x.patch y.patch with h3 | h3 | h3
      · rw [natCmpI_eq_neg_one.mpr h3]
        unfold TripleLt TripleEq
        omega
      · rw [natCmpI_eq_zero.mpr h3]
        unfold TripleLt TripleEq
        omega
      · rw [natCmpI_eq_one.mpr h3]
        unfold TripleLt TripleEq
        omega
    · rw [natCmpI_eq_one.mpr h2, if_neg (by decide)]
      unfold TripleLt TripleEq
      omega
  · rw [natCmpI_eq_one.mpr h, if_neg (by decide)]
    unfold TripleLt TripleEq
    omega

theorem tripleCmp_trichotomy (x y : Version) :
    tripleCmp x y = -1 ∨ tripleCmp x y = 0 ∨ tripleCmp x y = 1 := by
  obtain ⟨a, b, c⟩ := tripleCmp_spec x y
  have h : TripleLt x y ∨ TripleEq x y ∨ TripleLt y x := by
    unfold TripleLt TripleEq
    omega
  rcases h with h | h | h
  · exact Or.inl (a.mpr h)
  · exact Or.inr (Or.inl (b.mpr h))
  · exact Or.inr (Or.inr (c.mpr h))

theorem tripleEq_symm {x y : Version} (h : TripleEq x y) : TripleEq y x := by
  unfold TripleEq at h ⊢
  omega

theorem pyIsDigits_empty : pyIsDigits "" = false := rfl

theorem validPreIdent_ne_empty {q : String} (h : validPreIdent q = true) : q ≠ "" := by
  intro he
  subst he
  simp [validPreIdent] at h

theorem empty_strLt_of_ne {q : String} (h : q ≠ "") : StrLt "" q := by
  unfold StrLt
  rcases q with ⟨l⟩
  cases l with
  | nil => exact absurd rfl h
  | cons c cs => exact CharsLt.nil c cs

theorem cmpTag_empty_left {q : String} (hq : validPreIdent q = true) :
    cmpPrereleaseTag "" q ≠ 0 := by
  have hlt : StrLt "" q := empty_strLt_of_ne (validPreIdent_ne_empty hq)
  unfold cmpPrereleaseTag
  rw [pyIsDigits_empty]
  by_cases hd : pyIsDigits q = true
  · simp [hd]
  · have hv : strCmp "" q = -1 := (strCmp_spec "" q).1.mpr hlt
    simp [hd, hv]

theorem cmpTag_empty_right {q : String} (hq : validPreIdent q = true) :
    cmpPrereleaseTag q "" ≠ 0 := by
  have hlt : StrLt "" q := empty_strLt_of_ne (validPreIdent_ne_empty hq)
  unfold cmpPrereleaseTag
  rw [pyIsDigits_empty]
  by_cases hd : pyIsDigits q = true
  · simp [hd]
  · have hv : strCmp q "" = 1 := (strCmp_spec q "").2.2.mpr hlt
    simp [hd, hv]

theorem splitDots_empty : splitDots "" = [""] := rfl

/-- Against a well-formed prerelease list, the sentinel `[""]` used by
`_nat_cmp` for an absent prerelease never compares equal. -/
theorem natCmpOpt_none_some {p : String} (hp : (splitDots p).all validPreIdent = true) :
    natCmpOpt none (some p) ≠ 0 ∧ natCmpOpt (some p) none ≠ 0 := by
  have hgoal : natCmpOpt none (some p) = natCmpParts [""] (splitDots p) := by
    unfold natCmpOpt
    rw [Option.getD_none, Option.getD_some, splitDots_empty]
  have hgoal2 : natCmpOpt (some p) none = natCmpParts (splitDots p) [""] := by
    unfold natCmpOpt
    rw [Option.getD_none, Option.getD_some, splitDots_empty]
  rw [hgoal, hgoal2]
  obtain ⟨l, hl⟩ : ∃ l, splitDots p = l := ⟨_, rfl⟩
  rw [hl] at hp ⊢
  cases l with
  | nil => exact ⟨by simp [natCmpParts], by simp [natCmpParts]⟩
  | cons q qs =>
    have hq : validPreIdent q = true :=
      (List.all_eq_true.mp hp) q (List.mem_cons_self q qs)
    exact ⟨by simp [natCmpParts, cmpTag_empty_left hq],
      by simp [natCmpParts, cmpTag_empty_right hq]⟩

theorem strCmp_self (a : String) : strCmp a a = 0 := (strCmp_spec a a).2.1.mpr rfl

theorem cmpTag_empty_empty : cmpPrereleaseTag "" "" = 0 := by
  unfold cmpPrereleaseTag
  rw [pyIsDigits_empty]
  simp [strCmp_self]

theorem natCmpOpt_none_none : natCmpOpt none none = 0 := by
  have h : natCmpOpt none none = natCmpParts [""] [""] := rfl
  rw [h]
  simp [natCmpParts, cmpTag_empty_empty]

/-- The comparison computed by the `semver` library agrees with the
declarative precedence order on well-formed versions. -/
theorem compareVersions_spec (x y : Version) (hx : WFPre x) (hy : WFPre y) :
    (compareVersions x y = -1 ↔ VersionLt x y) ∧ (compareVersions x y = 0 ↔ VersionEq x y) ∧
    (compareVersions x y = 1 ↔ VersionLt y x) := by
  obtain ⟨t1, t2, t3⟩ := tripleCmp_spec x y
  simp only [compareVersions]
  unfold VersionLt VersionEq
  rcases tripleCmp_trichotomy x y with h | h | h
  · have hTL : TripleLt x y := t1.mp h
    have hne : ¬ TripleEq x y := fun he => by have := t2.mpr he; omega
    have hnes : ¬ TripleEq y x := fun he => hne (tripleEq_symm he)
    have hnl : ¬ TripleLt y x := fun he => by have := t3.mpr he; omega
    rw [h, if_neg (by decide)]
    simp [hTL, hne, hnes, hnl]
  · have hTE : TripleEq x y := t2.mp h
    have hTEs : TripleEq y x := tripleEq_symm hTE
    have hnl : ¬ TripleLt x y := fun he => by have := t1.mpr he; omega
    have hnl2 : ¬ TripleLt y x := fun he => by have := t3.mpr he; omega
    rw [h, if_pos rfl]
    cases hpx : x.prerelease with
    | none =>
      cases hpy : y.prerelease with
      | none =>
        rw [natCmpOpt_none_none, if_pos rfl]
        simp [hTE, hTEs, hnl, hnl2, PreLt, PreEq]
      | some q =>
        obtain ⟨hn, _⟩ := natCmpOpt_none_some (hy q hpy)
        rw [if_neg hn, if_pos rfl]
        simp [hTE, hTEs, hnl, hnl2, PreLt, PreEq]
    | some p =>
      cases hpy : y.prerelease with
      | none =>
        obtain ⟨_, hn⟩ := natCmpOpt_none_some (hx p hpx)
        rw [if_neg hn, if_neg (by simp), if_pos rfl]
        simp [hTE, hTEs, hnl, hnl2, PreLt, PreEq]
      | some q =>
        obtain ⟨p1, p2, p3⟩ := natCmpParts_spec (splitDots p) (splitDots q)
        have hcmp : natCmpOpt (some p) (some q) = natCmpParts (splitDots p) (splitDots q) := rfl
        have hn1 : ¬ PartsLt (splitDots p) (splitDots q) → natCmpParts (splitDots p) (splitDots q) ≠ -1 :=
          fun hq hc => hq (p1.mp hc)
        rcases natCmpParts_trichotomy (splitDots p) (splitDots q) with hc | hc | hc
        · have e1 : PartsLt (splitDots p) (splitDots q) := p1.mp hc
          have e2 : ¬ PartsEq (splitDots p) (splitDots q) := fun hq => by have := p2.mpr hq; omega
          have e3 : ¬ PartsLt (splitDots q) (splitDots p) := fun hq => by have := p3.mpr hq; omega
          rw [hcmp, hc, if_neg (by decide), if_neg (by simp), if_neg (by simp)]
          simp [hTE, hTEs, hnl, hnl2, PreLt, PreEq, e1, e2, e3]
        · have e1 : ¬ PartsLt (splitDots p) (splitDots q) := fun hq => by have := p1.mpr hq; omega
          have e2 : PartsEq (splitDots p) (splitDots q) := p2.mp hc
          have e3 : ¬ PartsLt (splitDots q) (splitDots p) := fun hq => by have := p3.mpr hq; omega
          rw [hcmp, hc, if_pos rfl]
          simp [hTE, hTEs, hnl, hnl2, PreLt, PreEq, e1, e2, e3]
        · have e1 : ¬ PartsLt (splitDots p) (splitDots q) := fun hq => by have := p1.mpr hq; omega
          have e2 : ¬ PartsEq (splitDots p) (splitDots q) := fun hq => by have := p2.mpr hq; omega
          have e3 : PartsLt (splitDots q) (splitDots p) := p3.mp hc
          rw [hcmp, hc, if_neg (by decide), if_neg (by simp), if_neg (by simp)]
          simp [hTE, hTEs, hnl, hnl2, PreLt, PreEq, e1, e2, e3]
  · have hTL : TripleLt y x := t3.mp h
    have hne : ¬ TripleEq x y := fun he => by have := t2.mpr he; omega
    have hnes : ¬ TripleEq y x := fun he => hne (tripleEq_symm he)
    have hnl : ¬ TripleLt x y := fun he => by have := t1.mpr he; omega
    rw [h, if_neg (by decide)]
    simp [hTL, hne, hnes, hnl]

theorem parseBuild_pre {maj mnr pat : Nat} {pre : Option String} {brest : List Char} {v : Version}
    (h : parseBuild maj mnr pat pre brest = some v) : v.prerelease = pre := by
  unfold parseBuild at h
  split_ifs at h
  cases h
  rfl

theorem parseTail_wf {maj mnr pat : Nat} {l : List Char} {v : Version}
    (h : parseTail maj mnr pat l = some v) : WFPre v := by
  cases l with
  | nil =>
    simp only [parseTail, Option.some.injEq] at h
    intro p hp
    rw [← h] at hp
    exact Option.noConfusion hp
  | cons c rest =>
    simp only [parseTail] at h
    by_cases h1 : c = '-'
    · rw [if_pos h1] at h
      by_cases h2 :
          (splitDots (String.mk (rest.takeWhile fun x => x ≠ '+'))).all validPreIdent = true
      · rw [if_pos h2] at h
        rcases hd : rest.drop (rest.takeWhile fun x => x ≠ '+').length with _ | ⟨d, brest⟩
        · rw [hd] at h
          have hv : (⟨maj, mnr, pat,
              some (String.mk (rest.takeWhile fun x => x ≠ '+')), none⟩ : Version) = v :=
            Option.some.inj h
          intro p hp
          rw [← hv] at hp
          cases hp
          exact h2
        · rw [hd] at h
          have hpre : v.prerelease = some (String.mk (rest.takeWhile fun x => x ≠ '+')) :=
            parseBuild_pre h
          intro p hp
          rw [hpre] at hp
          cases hp
          exact h2
      · rw [if_neg h2] at h
        exact Option.noConfusion h
    · rw [if_neg h1] at h
      by_cases h4 : c = '+'
      · rw [if_pos h4] at h
        have hpre : v.prerelease = none := parseBuild_pre h
        intro p hp
        rw [hpre] at hp
        exact Option.noConfusion hp
      · rw [if_neg h4] at h
        exact Option.noConfusion h

theorem parseVersion_wf {s : String} {v : Version} (h : parseVersion s = some v) : WFPre v := by
  unfold parseVersion at h
  repeat' split at h
  all_goals first
    | exact Option.noConfusion h
    | exact parseTail_wf h

/-- C3. For version strings that both parse as semantic versions,
`compversion_local` returns the semantic-version comparison: `-1`
(Python `semver.compare`) exactly when the first is lower in semver
precedence, `0` exactly when they are precedence-equal, `1` exactly when
the first is higher; when either string is not a valid semantic version it
returns the empty string (modelled as `none`). -/
theorem compversion_local_spec (vl vo : String) :
    (∀ a b, parseVersion vl = some a → parseVersion vo = some b →
      compversion_local vl vo = some (compareVersions a b)
      ∧ (compversion_local vl vo = some (-1) ↔ VersionLt a b)
      ∧ (compversion_local vl vo = some 0 ↔ VersionEq a b)
      ∧ (compversion_local vl vo = some 1 ↔ VersionLt b a))
    ∧ ((parseVersion vl = none ∨ parseVersion vo = none) → compversion_local vl vo = none) := by
  constructor
  · intro a b ha hb
    have hv : compversion_local vl vo = some (compareVersions a b) := by
      unfold compversion_local
      rw [ha, hb]
    obtain ⟨s1, s2, s3⟩ := compareVersions_spec a b (parseVersion_wf ha) (parseVersion_wf hb)
    refine ⟨hv, ?_, ?_, ?_⟩ <;> rw [hv] <;> simp only [Option.some.injEq]
    · exact s1
    · exact s2
    · exact s3
  · intro h
    unfold compversion_local
    rcases h with h | h
    · rw [h]
    · rw [h]
      cases parseVersion vl <;> rfl

/-- Witness for `compversion_local_spec` at concrete versions. -/
theorem compversion_local_spec_witness :
    compversion_local "1.2.3" "2.0.0" = some (-1) ∧ compversion_local "1.2.x" "2.0.0" = none := by
  constructor
  · have h := ((compversion_local_spec "1.2.3" "2.0.0").1
      ⟨1, 2, 3, none, none⟩ ⟨2, 0, 0, none, none⟩ (by decide) (by decide)).2.1
    exact h.mpr (Or.inl (Or.inl (by decide)))
  · exact (compversion_local_spec "1.2.x" "2.0.0").2 (Or.inl (by decide))

theorem update_step_ok_flags (cfg : UpdateConfig) (m : LocalMod) (r : Release) (env : ModEnv) :
    ((update_step_ok cfg m r env).triggered = true ↔ DownloadCond cfg m r) ∧
    ((update_step_ok cfg m r env).downloaded = true ↔
      DownloadCond cfg m r ∧ env.contentLengthOk = true ∧ env.removeOk = true) ∧
    ((update_step_ok cfg m r env).aborted = true ↔
      DownloadCond cfg m r ∧ env.contentLengthOk = true ∧ env.removeOk = false) := by
  unfold update_step_ok
  cases hp : parseVersion r.modversion with
  | none => simp [DownloadCond, hp]
  | some pre =>
    dsimp only
    by_cases hd : cfg.disable_mod_dev = "false" ∨ pre.prerelease = none
    · rw [if_pos hd]
      cases ht : tagMinVersion r.tags with
      | error e => simp [DownloadCond, hp, ht, hd]
      | ok fm =>
        dsimp only
        by_cases hg : compversion_first_min_version cfg.gamever_limit fm = some (-1) ∨
            compversion_first_min_version cfg.gamever_limit fm = some 0
        · rw [if_pos hg]
          by_cases hl : compversion_local m.version r.modversion = some (-1) ∨
              (compversion_local m.version r.modversion = some 0 ∧
                pyLower cfg.force_update = "true")
          · rw [if_pos hl]
            cases hc : env.contentLengthOk <;> cases hk : env.removeOk <;>
              simp [DownloadCond, hp, ht, hd, hg, hl]
          · rw [if_neg hl]
            simp [DownloadCond, hp, ht, hd, hg, hl]
        · rw [if_neg hg]
          simp [DownloadCond, hp, ht, hd, hg]
    · rw [if_neg hd]
      simp [DownloadCond, hp, hd]

theorem update_step_flags (cfg : UpdateConfig) (m : LocalMod) (env : ModEnv) :
    ((update_step cfg m env).triggered = true ↔
      ∃ r, env.api = ApiResponse.ok r ∧ DownloadCond cfg m r) ∧
    ((update_step cfg m env).downloaded = true ↔
      ∃ r, env.api = ApiResponse.ok r ∧ DownloadCond cfg m r ∧
        env.contentLengthOk = true ∧ env.removeOk = true) ∧
    ((update_step cfg m env).aborted = true ↔
      ∃ r, env.api = ApiResponse.ok r ∧ DownloadCond cfg m r ∧
        env.contentLengthOk = true ∧ env.removeOk = false) := by
  unfold update_step
  cases ha : env.api with
  | ok r =>
    obtain ⟨f1, f2, f3⟩ := update_step_ok_flags cfg m r env
    dsimp only
    exact ⟨by simp [f1], by simp [f2], by simp [f3]⟩
  | urlError => refine ⟨?_, ?_, ?_⟩ <;> simp
  | readTimeout => refine ⟨?_, ?_, ?_⟩ <;> simp
  | keyError => refine ⟨?_, ?_, ?_⟩ <;> simp
  | otherError => refine ⟨?_, ?_, ?_⟩ <;> simp

theorem update_mods_loop_no_abort (cfg : UpdateConfig) (info : String → LocalMod)
    (envs : String → ModEnv) :
    ∀ files, (∀ f ∈ files, (update_step cfg (info f) (envs f)).aborted = false) →
      update_mods_loop cfg info envs files = ⟨files, false⟩
  | [], _ => rfl
  | f :: fs, h => by
    have hf := h f (List.mem_cons_self f fs)
    have ih := update_mods_loop_no_abort cfg info envs fs
      (fun g hg => h g (List.mem_cons_of_mem f hg))
    unfold update_mods_loop
    rw [hf]
    simp [ih]

/-- C1 (amended): a mod is downloaded only when its per-mod API request
succeeded, the release's minimum game version (the suffix of the last tag)
compares at most the configured limit, and the online version is strictly
newer than the local one under `semver.compare`, or equal to it with
`force_update` enabled. -/
theorem update_mods_download_only_if (cfg : UpdateConfig) (m : LocalMod) (env : ModEnv)
    (h : (update_step cfg m env).downloaded = true) :
    ∃ r, env.api = ApiResponse.ok r ∧
      (∃ fm, tagMinVersion r.tags = Except.ok fm ∧
        (compversion_first_min_version cfg.gamever_limit fm = some (-1) ∨
         compversion_first_min_version cfg.gamever_limit fm = some 0)) ∧
      (compversion_local m.version r.modversion = some (-1) ∨
        (compversion_local m.version r.modversion = some 0 ∧
          pyLower cfg.force_update = "true")) := by
  obtain ⟨r, hr, hc, _, _⟩ := ((update_step_flags cfg m env).2.1).mp h
  exact ⟨r, hr, hc.2.1, hc.2.2⟩

/-- C1 counterexample: with `force_update = "true"` in the configuration
and the local version equal to the latest online version (semver
comparison `0`, i.e. local ≥ online), the mod is nevertheless downloaded. -/
theorem update_mods_download_equal_counterexample :
    compversion_local "1.2.3" "1.2.3" = some 0 ∧
    (update_step ⟨"true", "false", "100.0.0"⟩ ⟨"Mod", "mod", "1.2.3"⟩
      ⟨ApiResponse.ok ⟨"7", "1.2.3", "files/mod.zip", ["v1.19.8"]⟩, true, true⟩).downloaded
      = true :=
  ⟨by decide, by decide⟩

/-- Witness for `update_mods_download_only_if` at a concrete update. -/
theorem update_mods_download_only_if_witness :
    ∃ r, (⟨ApiResponse.ok ⟨"7", "1.3.0", "files/mod.zip", ["v1.19.8"]⟩, true, true⟩ : ModEnv).api
        = ApiResponse.ok r ∧
      (∃ fm, tagMinVersion r.tags = Except.ok fm ∧
        (compversion_first_min_version "100.0.0" fm = some (-1) ∨
         compversion_first_min_version "100.0.0" fm = some 0)) ∧
      (compversion_local "1.2.3" r.modversion = some (-1) ∨
        (compversion_local "1.2.3" r.modversion = some 0 ∧ pyLower "false" = "true")) :=
  update_mods_download_only_if ⟨"false", "false", "100.0.0"⟩ ⟨"Mod", "mod", "1.2.3"⟩
    ⟨ApiResponse.ok ⟨"7", "1.3.0", "files/mod.zip", ["v1.19.8"]⟩, true, true⟩ (by decide)

/-- C2 (amended): every exception raised while checking or updating a
single mod (URL error, read timeout, missing JSON key, any other
exception) is caught and the loop continues with the next mod; the one
exit is a `PermissionError` while deleting the old mod file inside the
download branch, which terminates the program. -/
theorem update_mods_error_handling (cfg : UpdateConfig) (info : String → LocalMod)
    (envs : String → ModEnv) (files : List String) :
    (∀ m env, (update_step cfg m env).aborted = true →
      (∃ r, env.api = ApiResponse.ok r ∧ DownloadCond cfg m r) ∧
        env.contentLengthOk = true ∧ env.removeOk = false) ∧
    ((∀ f ∈ files, (update_step cfg (info f) (envs f)).aborted = false) →
      (update_mods_loop cfg info envs files).processed = files ∧
      (update_mods_loop cfg info envs files).aborted = false) := by
  constructor
  · intro m env h
    obtain ⟨r, hr, hc, hcl, hrm⟩ := ((update_step_flags cfg m env).2.2).mp h
    exact ⟨⟨r, hr, hc⟩, hcl, hrm⟩
  · intro h
    rw [update_mods_loop_no_abort cfg info envs files h]
    exact ⟨rfl, rfl⟩

/-- C2 counterexample: a `PermissionError` while deleting the first mod's
old file aborts the run, so the second mod in the list is never processed. -/
theorem update_mods_abort_counterexample :
    (update_mods_loop ⟨"false", "false", "100.0.0"⟩
      (fun f => ⟨f, "moda", "1.0.0"⟩)
      (fun _ => ⟨ApiResponse.ok ⟨"7", "1.1.0", "files/a.zip", ["v1.19.8"]⟩, true, false⟩)
      ["a.zip", "b.zip"]).processed = ["a.zip"] ∧
    (update_mods_loop ⟨"false", "false", "100.0.0"⟩
      (fun f => ⟨f, "moda", "1.0.0"⟩)
      (fun _ => ⟨ApiResponse.ok ⟨"7", "1.1.0", "files/a.zip", ["v1.19.8"]⟩, true, false⟩)
      ["a.zip", "b.zip"]).aborted = true :=
  ⟨by decide, by decide⟩

/-- Witness for `update_mods_error_handling`: with every API request
failing, both mods are still processed and the run is not aborted. -/
theorem update_mods_error_handling_witness :
    (update_mods_loop ⟨"false", "false", "100.0.0"⟩ (fun f => ⟨f, "moda", "1.0.0"⟩)
      (fun _ => ⟨ApiResponse.urlError, true, true⟩) ["a.zip", "b.zip"]).processed
      = ["a.zip", "b.zip"] :=
  ((update_mods_error_handling ⟨"false", "false", "100.0.0"⟩ (fun f => ⟨f, "moda", "1.0.0"⟩)
    (fun _ => ⟨ApiResponse.urlError, true, true⟩) ["a.zip", "b.zip"]).2 (by decide)).1

/-! ## HTTP endpoints contacted per mod (C5, C6) -/
theorem update_step_ok_requests (cfg : UpdateConfig) (m : LocalMod) (r : Release) (env : ModEnv) :
    (∀ u ∈ (update_step_ok cfg m r env).requests,
      u = modApiUrl (queriedModid m) ∨ u = downloadLink r.mainfile ∨
        u = changelogUrl r.assetid) ∧
    ((update_step_ok cfg m r env).triggered = false →
      ∀ u ∈ (update_step_ok cfg m r env).requests, u = modApiUrl (queriedModid m)) := by
  unfold update_step_ok
  repeat' split
  all_goals refine ⟨?_, ?_⟩ <;> simp

theorem update_step_requests (cfg : UpdateConfig) (m : LocalMod) (env : ModEnv) :
    (∀ u ∈ (update_step cfg m env).requests,
      u = modApiUrl (queriedModid m) ∨
      ∃ r, env.api = ApiResponse.ok r ∧
        (u = downloadLink r.mainfile ∨ u = changelogUrl r.assetid)) ∧
    ((update_step cfg m env).triggered = false →
      ∀ u ∈ (update_step cfg m env).requests, u = modApiUrl (queriedModid m)) := by
  unfold update_step
  cases ha : env.api with
  | ok r =>
    obtain ⟨q1, q2⟩ := update_step_ok_requests cfg m r env
    refine ⟨?_, q2⟩
    intro u hu
    rcases q1 u hu with h | h | h
    · exact Or.inl h
    · exact Or.inr ⟨r, rfl, Or.inl h⟩
    · exact Or.inr ⟨r, rfl, Or.inr h⟩
  | urlError => exact ⟨by simp, by simp⟩
  | readTimeout => exact ⟨by simp, by simp⟩
  | keyError => exact ⟨by simp, by simp⟩
  | otherError => exact ⟨by simp, by simp⟩

/-- C5 (amended): a mod that does not enter the download branch only ever
contacts its fixed per-mod API URL; a mod that is updated additionally
contacts the release file's download link and the mod's changelog page —
three distinct endpoints, not one. -/
theorem update_mods_endpoints (cfg : UpdateConfig) (m : LocalMod) (env : ModEnv) :
    ((update_step cfg m env).triggered = false →
      ∀ u ∈ (update_step cfg m env).requests, u = modApiUrl (queriedModid m)) ∧
    (∀ u ∈ (update_step cfg m env).requests,
      u = modApiUrl (queriedModid m) ∨
      ∃ r, env.api = ApiResponse.ok r ∧
        (u = downloadLink r.mainfile ∨ u = changelogUrl r.assetid)) :=
  ⟨(update_step_requests cfg m env).2, (update_step_requests cfg m env).1⟩

/-- C5 counterexample: a mod that is updated issues requests to three
pairwise distinct endpoints (API check, release file, changelog page), so
"exactly one HTTP endpoint per item" fails. -/
theorem update_mods_endpoints_counterexample :
    (update_step ⟨"false", "false", "100.0.0"⟩ ⟨"Mod", "mod", "1.0.0"⟩
      ⟨ApiResponse.ok ⟨"7", "1.1.0", "files/mod.zip", ["v1.19.8"]⟩, true, true⟩).requests =
      [modApiUrl "mod", modApiUrl "mod", downloadLink "files/mod.zip",
        downloadLink "files/mod.zip", changelogUrl "7", changelogUrl "7"] ∧
    modApiUrl "mod" ≠ downloadLink "files/mod.zip" ∧
    modApiUrl "mod" ≠ changelogUrl "7" ∧
    downloadLink "files/mod.zip" ≠ changelogUrl "7" :=
  ⟨by decide, by decide, by decide, by decide⟩

/-- Witness for `update_mods_endpoints` at a mod that is not updated. -/
theorem update_mods_endpoints_witness :
    ∀ u ∈ (update_step ⟨"false", "false", "100.0.0"⟩ ⟨"Mod", "mod", "1.2.3"⟩
      ⟨ApiResponse.ok ⟨"7", "1.2.3", "files/mod.zip", ["v1.19.8"]⟩, true, true⟩).requests,
      u = modApiUrl "mod" :=
  (update_mods_endpoints ⟨"false", "false", "100.0.0"⟩ ⟨"Mod", "mod", "1.2.3"⟩
    ⟨ApiResponse.ok ⟨"7", "1.2.3", "files/mod.zip", ["v1.19.8"]⟩, true, true⟩).1 (by decide)

theorem isPrefixOf_append (l m : List Char) : l.isPrefixOf (l ++ m) = true := by
  induction l with
  | nil => simp [List.isPrefixOf]
  | cons c cs ih => simp [List.isPrefixOf, ih]

theorem strHasPre_append (p x : String) : strHasPre p (p ++ x) = true := by
  unfold strHasPre
  have h : (p ++ x).toList = p.toList ++ x.toList := rfl
  rw [h]
  exact isPrefixOf_append p.toList x.toList

theorem modApiUrl_rooted (mid : String) : strHasPre mods_url (modApiUrl mid) = true := by
  unfold modApiUrl api_url
  rw [String.append_assoc, String.append_assoc]
  exact strHasPre_append mods_url ("/api/mod" ++ ("/" ++ mid))

theorem downloadLink_rooted (f : String) : strHasPre mods_url (downloadLink f) = true := by
  unfold downloadLink
  rw [String.append_assoc]
  exact strHasPre_append mods_url ("/" ++ f)

theorem changelogUrl_rooted (a : String) : strHasPre mods_url (changelogUrl a) = true := by
  unfold changelogUrl show_url
  rw [String.append_assoc, String.append_assoc, String.append_assoc]
  exact strHasPre_append mods_url ("/show/mod" ++ ("/" ++ (a ++ "#tab-files")))

theorem strHasPre_slash_head {b : String} (h : strHasPre "/" b = true) :
    ∃ rest, b.toList = '/' :: rest := by
  unfold strHasPre at h
  rcases hb : b.toList with _ | ⟨c, cs⟩
  · rw [hb] at h
    simp [List.isPrefixOf] at h
  · rw [hb] at h
    simp [List.isPrefixOf] at h
    exact ⟨cs, by rw [← h]⟩

theorem posixJoin_rooted_or_rejected (modid : String) :
    strHasPre mods_url (posixJoin api_url modid) = true ∨
    hasUrlScheme (posixJoin api_url modid) = false := by
  unfold posixJoin
  by_cases hb : strHasPre "/" modid = true
  · rw [if_pos hb]
    obtain ⟨rest, hr⟩ := strHasPre_slash_head hb
    right
    unfold hasUrlScheme
    rw [hr]
    rfl
  · rw [if_neg hb, if_neg (by decide)]
    left
    unfold api_url
    rw [String.append_assoc, String.append_assoc]
    exact strHasPre_append mods_url ("/api/mod" ++ ("/" ++ modid))

/-- C6: every HTTP URL the program constructs and actually requests is
rooted at the fixed host `https://mods.vintagestory.at`: all update-pass
requests (API check, release download link, changelog page), the mod page
URL built by `ModInfo.get_url` from `assetid`/`urlalias`, and the
`os.path.join`ed API URL of `get_url` whenever it passes `urllib`'s scheme
check (otherwise `Request(url)` raises before any request is made). -/
theorem all_urls_rooted (cfg : UpdateConfig) (m : LocalMod) (env : ModEnv)
    (modid assetid urlalias : String) :
    (∀ u ∈ (update_step cfg m env).requests, strHasPre mods_url u = true) ∧
    (hasUrlScheme (posixJoin api_url modid) = true →
      strHasPre mods_url (posixJoin api_url modid) = true) ∧
    strHasPre mods_url (getUrlResult assetid urlalias) = true := by
  refine ⟨?_, ?_, ?_⟩
  · intro u hu
    rcases (update_step_requests cfg m env).1 u hu with h | ⟨r, _, h | h⟩
    · rw [h]
      exact modApiUrl_rooted _
    · rw [h]
      exact downloadLink_rooted _
    · rw [h]
      exact changelogUrl_rooted _
  · intro hs
    rcases posixJoin_rooted_or_rejected modid with h | h
    · exact h
    · rw [hs] at h
      exact absurd h (by decide)
  · unfold getUrlResult
    by_cases ha : urlalias = "None"
    · rw [if_pos ha]
      unfold api_url
      rw [String.append_assoc, String.append_assoc]
      exact strHasPre_append _ _
    · rw [if_neg ha, String.append_assoc]
      exact strHasPre_append _ _

/-- Witness for `all_urls_rooted` at concrete inputs. -/
theorem all_urls_rooted_witness :
    strHasPre mods_url (posixJoin api_url "examplemod") = true ∧
    ∀ u ∈ (update_step ⟨"false", "false", "100.0.0"⟩ ⟨"Mod", "mod", "1.2.3"⟩
        ⟨ApiResponse.urlError, true, true⟩).requests, strHasPre mods_url u = true :=
  ⟨(all_urls_rooted ⟨"false", "false", "100.0.0"⟩ ⟨"Mod", "mod", "1.2.3"⟩
      ⟨ApiResponse.urlError, true, true⟩ "examplemod" "7" "None").2.1 (by decide),
    (all_urls_rooted ⟨"false", "false", "100.0.0"⟩ ⟨"Mod", "mod", "1.2.3"⟩
      ⟨ApiResponse.urlError, true, true⟩ "examplemod" "7" "None").1⟩

theorem pyRemoveFirst_length_le (x : String) : ∀ l : List String,
    (pyRemoveFirst x l).length ≤ l.length
  | [] => Nat.le_refl 0
  | y :: ys => by
    unfold pyRemoveFirst
    split
    · simp
    · simpa using pyRemoveFirst_length_le x ys

theorem removeEmptiesFrom_length_le : ∀ (n : Nat) (l : List String) (i : Nat),
    l.length - i ≤ n → (removeEmptiesFrom l i).length ≤ l.length
  | n, l, i, hn => by
    unfold removeEmptiesFrom
    split
    · rename_i hlt
      have hle := pyRemoveFirst_length_le "" l
      cases n with
      | zero => omega
      | succ n2 =>
        by_cases hc : l.get ⟨i, hlt⟩ = ""
        · rw [if_pos hc]
          have hrec := removeEmptiesFrom_length_le n2 (pyRemoveFirst "" l) (i + 1) (by omega)
          omega
        · rw [if_neg hc]
          have hrec := removeEmptiesFrom_length_le n2 l (i + 1) (by omega)
          omega
    · exact Nat.le_refl _

theorem stripLoopFrom_length : ∀ (n : Nat) (l : List String) (i : Nat),
    l.length - i ≤ n → (stripLoopFrom l i).length = l.length
  | n, l, i, hn => by
    unfold stripLoopFrom
    split
    · rename_i hlt
      cases n with
      | zero => omega
      | succ n2 =>
        have hrec := stripLoopFrom_length n2
          (l.set (l.findIdx fun y => y = l.get ⟨i, hlt⟩) (stripLeadNonWord (l.get ⟨i, hlt⟩)))
          (i + 1) (by simp only [List.length_set]; omega)
        simp only [List.length_set] at hrec
        exact hrec
    · rfl

/-- C7: the changelog cleanup always terminates (it is a total function of
the fetched lines, single pass with a bounded cursor), never grows the
list, and the returned dict maps the scraped latest version to the cleaned
lines and `"url"` to the page url. -/
theorem get_changelog_spec (last_version url : String) (lines : List String)
    (h : last_version ≠ "url") :
    dictLookup "url" (get_changelog_ok last_version url lines) = some (LogVal.url url) ∧
    dictLookup last_version (get_changelog_ok last_version url lines) =
      some (LogVal.lines (changelogClean lines)) ∧
    (changelogClean lines).length ≤ lines.length := by
  have hg : get_changelog_ok last_version url lines =
      [(last_version, LogVal.lines (changelogClean lines)), ("url", LogVal.url url)] := by
    unfold get_changelog_ok
    simp only [dictInsert]
    rw [if_neg h]
  refine ⟨?_, ?_, ?_⟩
  · rw [hg]
    simp only [dictLookup]
    rw [if_neg h]
    simp
  · rw [hg]
    simp only [dictLookup]
    simp
  · unfold changelogClean
    have h1 := stripLoopFrom_length (removeEmptiesFrom lines 0).length
      (removeEmptiesFrom lines 0) 0 (by omega)
    have h2 := removeEmptiesFrom_length_le lines.length lines 0 (by omega)
    omega

/-- Witness for `get_changelog_spec` at a concrete fetched changelog. -/
theorem get_changelog_spec_witness :
    dictLookup "1.2.0" (get_changelog_ok "1.2.0" "https://mods.vintagestory.at/show/mod/7"
      ["", "- fixed a bug", "* new block"]) =
      some (LogVal.lines (changelogClean ["", "- fixed a bug", "* new block"])) :=
  (get_changelog_spec "1.2.0" "https://mods.vintagestory.at/show/mod/7"
    ["", "- fixed a bug", "* new block"] (by decide)).2.1

/-- C9: for every key of length greater than one that is present in the
loaded language file, `LanguageHandler.get` ignores the loaded translation
and returns the `en_US` default: the membership test compares the key with
single-character strings and cannot succeed. -/
theorem languageHandler_get_defaults_long_keys (h : LanguageHandler) (key v : String)
    (hk : lookupStr key h.i18n = some v) (hlen : 1 < key.length) :
    LanguageHandler.get h key = LanguageHandler.get_default h key := by
  unfold LanguageHandler.get
  rw [hk]
  dsimp only
  have hany : v.toList.any (fun c => String.mk [c] == key) = false := by
    rw [List.any_eq_false]
    intro c _ hbeq
    have he : String.mk [c] = key := by
      have := of_decide_eq_true (by simpa using hbeq)
      exact this
    have h1 : key.length = 1 := by
      rw [← he]
      rfl
    omega
  rw [hany]
  simp

/-- Witness for `languageHandler_get_defaults_long_keys`. -/
theorem languageHandler_get_defaults_long_keys_witness :
    LanguageHandler.get ⟨[("yes", "ja")], [("yes", "yes")]⟩ "yes" =
      LanguageHandler.get_default ⟨[("yes", "ja")], [("yes", "yes")]⟩ "yes" :=
  languageHandler_get_defaults_long_keys ⟨[("yes", "ja")], [("yes", "yes")]⟩ "yes" "ja"
    (by decide) (by decide)

theorem insertSortedBy_perm (ltb : String → String → Bool) (x : String) :
    ∀ l : List String, (insertSortedBy ltb x l).Perm (x :: l)
  | [] => List.Perm.refl [x]
  | y :: ys => by
    unfold insertSortedBy
    split
    · exact ((insertSortedBy_perm ltb x ys).cons y).trans (List.Perm.swap x y ys)
    · exact List.Perm.refl _

theorem pySortBy_perm (ltb : String → String → Bool) :
    ∀ l : List String, (pySortBy ltb l).Perm l
  | [] => List.Perm.refl []
  | x :: xs => (insertSortedBy_perm ltb x (pySortBy ltb xs)).trans ((pySortBy_perm ltb xs).cons x)

theorem mods_exclusion_acc_mono (x : String) :
    ∀ (vals acc : List String), x ∈ acc →
      x ∈ vals.foldl (fun acc v => pySortBy strLtB (if v ≠ "" then acc ++ [v] else acc)) acc
  | [], acc, hx => hx
  | w :: ws, acc, hx => by
    rw [List.foldl_cons]
    refine mods_exclusion_acc_mono x ws _ ?_
    rw [(pySortBy_perm strLtB _).mem_iff]
    split
    · exact List.mem_append_left _ hx
    · exact hx

theorem mods_exclusion_mem (v : String) :
    ∀ (vals acc : List String), v ∈ vals → v ≠ "" →
      v ∈ vals.foldl (fun acc v => pySortBy strLtB (if v ≠ "" then acc ++ [v] else acc)) acc
  | [], _, hv, _ => absurd hv (List.not_mem_nil v)
  | w :: ws, acc, hv, hne => by
    rw [List.foldl_cons]
    rcases List.mem_cons.mp hv with he | hm
    · subst he
      refine mods_exclusion_acc_mono v ws _ ?_
      rw [(pySortBy_perm strLtB _).mem_iff, if_pos hne]
      exact List.mem_append_right acc (List.mem_singleton.mpr rfl)
    · exact mods_exclusion_mem v ws _ hm hne

theorem pyRemoveFirst_sublist (x : String) : ∀ l : List String, (pyRemoveFirst x l).Sublist l
  | [] => List.Sublist.refl []
  | y :: ys => by
    unfold pyRemoveFirst
    split
    · exact List.sublist_cons_self y ys
    · exact (pyRemoveFirst_sublist x ys).cons₂ y

theorem not_mem_pyRemoveFirst {x : String} : ∀ {l : List String}, l.Nodup →
    x ∉ pyRemoveFirst x l
  | [], _ => List.not_mem_nil x
  | y :: ys, hnd => by
    unfold pyRemoveFirst
    split
    · rename_i he
      subst he
      exact (List.nodup_cons.mp hnd).1
    · rename_i he
      intro hm
      rcases List.mem_cons.mp hm with h1 | h1
      · exact he h1.symm
      · exact not_mem_pyRemoveFirst (List.nodup_cons.mp hnd).2 h1

theorem mods_list_sublist : ∀ (exclusions complete : List String),
    (mods_list exclusions complete).Sublist complete
  | [], _ => List.Sublist.refl _
  | e :: es, complete => by
    unfold mods_list
    rw [List.foldl_cons]
    refine (mods_list_sublist es _).trans ?_
    split
    · exact pyRemoveFirst_sublist e complete
    · exact List.Sublist.refl _

theorem mods_list_not_mem {v : String} : ∀ {exclusions complete : List String},
    complete.Nodup → v ∈ exclusions → v ∉ mods_list exclusions complete
  | [], _, _, hv => absurd hv (List.not_mem_nil v)
  | e :: es, complete, hnd, hv => by
    unfold mods_list
    rw [List.foldl_cons]
    have hstep : ((if e ∈ complete then pyRemoveFirst e complete else complete)).Sublist
        complete := by
      split
      · exact pyRemoveFirst_sublist e complete
      · exact List.Sublist.refl _
    rcases List.mem_cons.mp hv with he | hm
    · subst he
      intro hmem
      have h2 : v ∈ (if v ∈ complete then pyRemoveFirst v complete else complete) :=
        (mods_list_sublist es _).mem hmem
      by_cases hc : v ∈ complete
      · rw [if_pos hc] at h2
        exact not_mem_pyRemoveFirst hnd h2
      · rw [if_neg hc] at h2
        exact hc h2
    · exact mods_list_not_mem (hnd.sublist hstep) hm

theorem update_mods_loop_processed_subset (cfg : UpdateConfig) (info : String → LocalMod)
    (envs : String → ModEnv) : ∀ (files : List String) (f : String),
      f ∈ (update_mods_loop cfg info envs files).processed → f ∈ files
  | [], f, h => by simp [update_mods_loop] at h
  | g :: gs, f, h => by
    by_cases hab : (update_step cfg (info g) (envs g)).aborted = true
    · unfold update_mods_loop at h
      rw [if_pos hab] at h
      simp at h
      simp [h]
    · unfold update_mods_loop at h
      rw [if_neg hab] at h
      simp only [List.mem_cons] at h ⊢
      rcases h with h | h
      · exact Or.inl h
      · exact Or.inr (update_mods_loop_processed_subset cfg info envs gs f h)

/-- C10: a filename listed with a non-empty value in `Mod_Exclusion` is
removed from the update list by `mods_list`, and the update pass neither
processes it nor deletes/re-downloads its file. -/
theorem mod_exclusion_frame (cfg : UpdateConfig) (info : String → LocalMod)
    (envs : String → ModEnv) (vals complete : List String) (v : String)
    (hnd : complete.Nodup) (hv : v ∈ vals) (hne : v ≠ "") :
    v ∉ mods_list (mods_exclusion vals) complete ∧
    v ∉ (update_mods_pass cfg info envs (mods_list (mods_exclusion vals) complete)).processed ∧
    v ∉ updatedFiles cfg info envs (mods_list (mods_exclusion vals) complete) := by
  have hexc : v ∈ mods_exclusion vals := mods_exclusion_mem v vals [] hv hne
  have h1 : v ∉ mods_list (mods_exclusion vals) complete := mods_list_not_mem hnd hexc
  have h2 : v ∉ (update_mods_pass cfg info envs
      (mods_list (mods_exclusion vals) complete)).processed := by
    intro hmem
    have hs := update_mods_loop_processed_subset cfg info envs _ v hmem
    unfold sortCasefold at hs
    rw [(pySortBy_perm _ _).mem_iff] at hs
    exact h1 hs
  refine ⟨h1, h2, ?_⟩
  intro hmem
  exact h2 (List.mem_of_mem_filter hmem)

/-- C4: on a zip whose `modinfo.json` text has quoted name and version
entries, `extract_modinfo` returns the regex captures for name and
version, the modid capture when one is present and otherwise the name
with spaces removed and lowercased, and the description capture when one
is present and otherwise the empty string; on a `.cs` file it returns the
namespace identifier as both name and modid together with the `Version`
and `Description` captures. -/
theorem extract_modinfo_spec (content cs_src : String) :
    (∀ n v, searchEntry "name" content = some n → searchEntry "version" content = some v →
      extract_modinfo_zip content = some ⟨n,
        (match searchEntry "modid" content with
         | some m => m
         | none => pyLower (pyRemoveSpaces n)), v,
        ((searchEntry "description" content).getD "")⟩) ∧
    (∀ n v d, searchCsName cs_src = some n → searchCsVersion cs_src = some v →
      searchCsDesc cs_src = some d → extract_modinfo_cs cs_src = some ⟨n, n, v, d⟩) := by
  constructor
  · intro n v hn hv
    unfold extract_modinfo_zip
    rw [hn, hv]
  · intro n v d hn hv hd
    unfold extract_modinfo_cs
    rw [hn, hv, hd]

/-- Witness for `extract_modinfo_spec` on concrete file contents. -/
theorem extract_modinfo_spec_witness :
    extract_modinfo_zip
        "\"name\": \"Cool Mod\",\n\"version\": \"1.2.3\",\n\"description\": \"Adds blocks\"," =
      some ⟨"Cool Mod", "coolmod", "1.2.3", "Adds blocks"⟩ ∧
    extract_modinfo_cs "namespace CoolMod\nVersion = \"1.0.0\"\nDescription = \"A mod\",\n" =
      some ⟨"CoolMod", "CoolMod", "1.0.0", "A mod"⟩ := by
  constructor
  · rw [(extract_modinfo_spec
        "\"name\": \"Cool Mod\",\n\"version\": \"1.2.3\",\n\"description\": \"Adds blocks\","
        "").1 "Cool Mod" "1.2.3" (by decide) (by decide)]
    decide
  · rw [(extract_modinfo_spec ""
        "namespace CoolMod\nVersion = \"1.0.0\"\nDescription = \"A mod\",\n").2
        "CoolMod" "1.0.0" "A mod" (by decide) (by decide) (by decide)]

/-- C8 counterexample: a modinfo whose name is a single space and which has
no modid entry: the extracted modid is empty, `update_mods`' re-derivation
also strips the name to nothing, and the API is queried with an EMPTY
modid. -/
theorem queried_modid_empty_counterexample :
    queried_modid_of_content "\"name\": \" \",\n\"version\": \"1.0.0\"," = some "" := by
  decide

theorem string_mk_ne_empty {l : List Char} (h : l ≠ []) : String.mk l ≠ "" := by
  intro he
  exact h (String.toList_inj.mpr he)

/-- C8 (amended): when the modinfo has name and version entries but no
modid entry, `extract_modinfo` derives the modid from the name by removing
spaces and lowercasing, `update_mods` queries the API with exactly that
value, and it is non-empty provided the name contains at least one
character other than a space. -/
theorem queried_modid_spec (content n v : String)
    (hn : searchEntry "name" content = some n)
    (hv : searchEntry "version" content = some v)
    (hm : searchEntry "modid" content = none)
    (hc : ∃ c ∈ n.toList, c ≠ ' ') :
    extract_modinfo_zip content =
      some ⟨n, pyLower (pyRemoveSpaces n), v, (searchEntry "description" content).getD ""⟩ ∧
    queried_modid_of_content content = some (pyLower (pyRemoveSpaces n)) ∧
    pyLower (pyRemoveSpaces n) ≠ "" := by
  obtain ⟨c, hcm, hcne⟩ := hc
  have hfil : c ∈ n.toList.filter (fun x => x ≠ ' ') := by
    rw [List.mem_filter]
    exact ⟨hcm, by simpa using hcne⟩
  have hne1 : pyRemoveSpaces n ≠ "" := by
    unfold pyRemoveSpaces
    apply string_mk_ne_empty
    intro hnil
    rw [hnil] at hfil
    exact List.not_mem_nil c hfil
  have hne2 : pyLower (pyRemoveSpaces n) ≠ "" := by
    unfold pyLower
    apply string_mk_ne_empty
    intro hnil
    have h0 : (pyRemoveSpaces n).toList = [] := List.map_eq_nil_iff.mp hnil
    exact hne1 (String.toList_inj.mp h0)
  have hext : extract_modinfo_zip content =
      some ⟨n, pyLower (pyRemoveSpaces n), v, (searchEntry "description" content).getD ""⟩ := by
    unfold extract_modinfo_zip
    rw [hn, hv]
    dsimp only
    rw [hm]
  refine ⟨hext, ?_, hne2⟩
  unfold queried_modid_of_content
  rw [hext]
  show some (queriedModid ⟨n, pyLower (pyRemoveSpaces n), v⟩) = some (pyLower (pyRemoveSpaces n))
  unfold queriedModid
  rw [if_neg hne2]

/-- Witness for `queried_modid_spec` on a concrete modinfo text. -/
theorem queried_modid_spec_witness :
    queried_modid_of_content "\"name\": \"Cool Mod\",\n\"version\": \"1.0.0\"," =
      some (pyLower (pyRemoveSpaces "Cool Mod")) :=
  (queried_modid_spec "\"name\": \"Cool Mod\",\n\"version\": \"1.0.0\"," "Cool Mod" "1.0.0"
    (by decide) (by decide) (by decide) ⟨'C', by decide, by decide⟩).2.1

/-- Witness for `mod_exclusion_frame` at a concrete configuration. -/
theorem mod_exclusion_frame_witness :
    "b.zip" ∉ mods_list (mods_exclusion ["b.zip", ""]) ["a.zip", "b.zip"] ∧
    "b.zip" ∉ (update_mods_pass ⟨"false", "false", "100.0.0"⟩ (fun f => ⟨f, "moda", "1.0.0"⟩)
      (fun _ => ⟨ApiResponse.urlError, true, true⟩)
      (mods_list (mods_exclusion ["b.zip", ""]) ["a.zip", "b.zip"])).processed ∧
    "b.zip" ∉ updatedFiles ⟨"false", "false", "100.0.0"⟩ (fun f => ⟨f, "moda", "1.0.0"⟩)
      (fun _ => ⟨ApiResponse.urlError, true, true⟩)
      (mods_list (mods_exclusion ["b.zip", ""]) ["a.zip", "b.zip"]) :=
  mod_exclusion_frame ⟨"false", "false", "100.0.0"⟩ (fun f => ⟨f, "moda", "1.0.0"⟩)
    (fun _ => ⟨ApiResponse.urlError, true, true⟩) ["b.zip", ""] ["a.zip", "b.zip"] "b.zip"
    (by decide) (by decide) (by decide)

end VSMU

